import Mathlib

/-!
Verification of the werkverzeichnis catalog core (sort-key algebra,
attribution merge, index builder, query engine) against its specification.

The Rust source is shallowly embedded: machine integers are `Int` (the code
performs no arithmetic that can overflow an `i64`; fallible parses are
modelled exactly, including the `unwrap_or(0)` and i64-range behaviour of
`str::parse`), `HashMap`s are association lists whose iteration order is the
insertion order, and the `regex` crate is modelled by an abstract capture
function `RegexFn` (one concrete matcher per pattern used by a claim), with
regex compilation an explicit oracle `String → Option RegexFn` passed to the
functions that compile patterns.
-/

/-- Rust `Ord for String` (strict part): lexicographic comparison of the
character sequences — for valid UTF-8, byte-wise order and code-point order
coincide. -/
def charsLt : List Char → List Char → Bool
  | [], [] => false
  | [], _ :: _ => true
  | _ :: _, [] => false
  | a :: as_, b :: bs =>
    if a.toNat < b.toNat then true
    else if a.toNat = b.toNat then charsLt as_ bs
    else false

/-- Rust `a < b` on `String`. -/
def strLt (a b : String) : Bool := charsLt a.data b.data

/-- `SortValue` from catalog.rs: tagged union of typed sort-key fields. -/
inductive SortValue where
  | Int (v : Int)
  | Str (s : String)
  | NoneFirst
  | NoneLast
deriving DecidableEq, BEq

/-- `Ord for SortValue` (catalog.rs `SortValue::cmp`):
total order `NoneFirst < Int < Str < NoneLast`, `Int`/`Str` by natural order. -/
def SortValue.cmp : SortValue → SortValue → Ordering
  | .NoneFirst, .NoneFirst => .eq
  | .NoneFirst, _ => .lt
  | _, .NoneFirst => .gt
  | .NoneLast, .NoneLast => .eq
  | .NoneLast, _ => .gt
  | _, .NoneLast => .lt
  | .Int a, .Int b => if a < b then .lt else if a = b then .eq else .gt
  | .Str a, .Str b => if strLt a b then .lt else if a = b then .eq else .gt
  | .Int _, .Str _ => .lt
  | .Str _, .Int _ => .gt

/-- `Ord for Vec<SortValue>`: lexicographic comparison, a strict prefix
comparing less than the longer vector. -/
def keyCmp : List SortValue → List SortValue → Ordering
  | [], [] => .eq
  | [], _ :: _ => .lt
  | _ :: _, [] => .gt
  | a :: as_, b :: bs =>
    match SortValue.cmp a b with
    | .eq => keyCmp as_ bs
    | o => o

/-- `k_key >= start_key` over `Vec<SortValue>` (derived `Ord`). -/
def keyGe (a b : List SortValue) : Bool := keyCmp a b ≠ Ordering.lt

/-- `k_key <= end_key` over `Vec<SortValue>` (derived `Ord`). -/
def keyLe (a b : List SortValue) : Bool := keyCmp a b ≠ Ordering.gt

/-- Value of one Roman-numeral letter (catalog.rs `parse_roman` table);
letters outside I,V,X,L,C,D,M count 0. -/
def romanVal (c : Char) : Int :=
  if c = 'I' then 1 else if c = 'V' then 5 else if c = 'X' then 10
  else if c = 'L' then 50 else if c = 'C' then 100 else if c = 'D' then 500
  else if c = 'M' then 1000 else 0

/-- The fold of `parse_roman`: scans the uppercased numeral right to left,
subtracting a letter smaller than its right neighbour, adding otherwise. -/
def romanGo : List Char → Int → Int → Int
  | [], _, total => total
  | c :: rest, prev, total =>
    let v := romanVal c
    romanGo rest v (if v < prev then total - v else total + v)

/-- catalog.rs `parse_roman`: uppercase, require every letter in IVXLCDM
(else 0), then subtractive-notation fold. -/
def parse_roman (s : String) : Int :=
  let u := s.data.map Char.toUpper
  if u.all (fun c => (['I', 'V', 'X', 'L', 'C', 'D', 'M']).contains c) then
    romanGo u.reverse 0 0
  else 0

/-- Numeric value of a digit string (big-endian) as a natural number. -/
def digitsVal (cs : List Char) : Nat :=
  cs.foldl (fun acc c => acc * 10 + (c.toNat - 48)) 0

/-- Rust `str::parse::<i64>().unwrap_or(0)`: optional sign, one or more
ASCII digits, nothing else, result within the i64 range; 0 on any failure. -/
def parse_i64 (s : String) : Int :=
  match s.data with
  | [] => 0
  | c :: rest =>
    let signed : Int × List Char :=
      if c = '+' then (1, rest) else if c = '-' then (-1, rest) else (1, c :: rest)
    let digits := signed.2
    if digits.isEmpty then 0
    else if digits.all Char.isDigit then
      let v : Int := signed.1 * (digitsVal digits : Int)
      if v < -(2 ^ 63) ∨ v > 2 ^ 63 - 1 then 0 else v
    else 0

/-- Rust `str::parse::<i32>().unwrap_or(0)` (edition labels in index.rs). -/
def parse_i32 (s : String) : Int :=
  match s.data with
  | [] => 0
  | c :: rest =>
    let signed : Int × List Char :=
      if c = '+' then (1, rest) else if c = '-' then (-1, rest) else (1, c :: rest)
    let digits := signed.2
    if digits.isEmpty then 0
    else if digits.all Char.isDigit then
      let v : Int := signed.1 * (digitsVal digits : Int)
      if v < -(2 ^ 31) ∨ v > 2 ^ 31 - 1 then 0 else v
    else 0

/-- types.rs `SortKey`: one sort-key declaration of a catalog definition. -/
structure SortKey where
  group : Nat
  sort_type : String
  display : Option String
deriving DecidableEq

/-- types.rs `EditionInfo` (per-edition metadata; not consulted by the
algorithms verified here). -/
structure EditionInfo where
  year : Int
  editor : String
deriving DecidableEq

/-- types.rs `CatalogDefinition` (the `editions` map as an association
list). -/
structure CatalogDefinition where
  name : String
  description : Option String
  canonical_format : Option String
  pattern : Option String
  sort_keys : Option (List SortKey)
  group_by : Option (List Nat)
  aliases : Option (List String)
  editions : Option (List (String × EditionInfo))
deriving DecidableEq

/-- Model of a compiled `Regex`: `Regex::captures` anchored behaviour as a
function from the subject string to the list of capture groups 1.. (none
when the whole pattern does not match, `some caps` with `caps[i-1]` the text
of group `i`, `none` for a group that did not participate). -/
def RegexFn : Type := String → Option (List (Option String))

/-- catalog.rs `parse_number_with_regex`: captures for groups `1..=max_group`
(groups beyond those of the pattern read as absent). -/
def parse_number_with_regex (re : RegexFn) (maxGroup : Nat) (number : String) :
    Option (List (Option String)) :=
  (re number).map (fun caps => (List.range maxGroup).map (fun i => (caps.get? i).join))

/-- One field of `sort_key_with_regex`: convert a captured value per the
declared sort type (absent or empty capture gives `NoneFirst`). -/
def sortValueOf (sk : SortKey) (raw : Option String) : SortValue :=
  match raw with
  | none => .NoneFirst
  | some s =>
    if s.isEmpty then .NoneFirst
    else if sk.sort_type = "int" then .Int (parse_i64 s)
    else if sk.sort_type = "roman" then .Int (parse_roman s)
    else .Str s

/-- catalog.rs `sort_key_with_regex`: sentinel key on parse mismatch, raw
string key when the definition declares no sort keys, otherwise one typed
value per declared sort key. -/
def sort_key_with_regex (number : String) (re : RegexFn) (defn : CatalogDefinition)
    (maxGroup : Nat) : List SortValue :=
  match parse_number_with_regex re maxGroup number with
  | none => [.Int 999999999, .Str number]
  | some captures =>
    match defn.sort_keys with
    | none => [.Str number]
    | some sks =>
      sks.map (fun sk => sortValueOf sk ((captures.get? (sk.group - 1)).join))

/-- `sks.iter().map(|sk| sk.group).max().unwrap_or(0)` with the outer
`unwrap_or(0)` for an absent `sort_keys`. -/
def maxGroupOf (defn : CatalogDefinition) : Nat :=
  match defn.sort_keys with
  | some sks => (sks.map (fun sk => sk.group)).foldr max 0
  | none => 0

/-- catalog.rs `sort_key`: raw-string key without a pattern, sentinel key
when the pattern does not compile, else `sort_key_with_regex`. -/
def sort_key (compile : String → Option RegexFn) (number : String)
    (defn : CatalogDefinition) : List SortValue :=
  match defn.pattern with
  | none => [.Str number]
  | some p =>
    match compile p with
    | none => [.Int 999999999, .Str number]
    | some re => sort_key_with_regex number re defn (maxGroupOf defn)

/-- Stable insertion into a sorted list: the new element goes after every
element `y` with `le y x` (preserving the relative order of equals, as
Rust's stable `sort`/`sort_by` does). -/
def insertSorted (le : α → α → Bool) (x : α) : List α → List α
  | [] => [x]
  | y :: ys => if le y x then y :: insertSorted le x ys else x :: y :: ys

/-- Stable sort by a boolean `le` (extensionally the unique stable sort, so
it agrees with Rust's stable `sort_by`). -/
def sortBy (le : α → α → Bool) (l : List α) : List α :=
  l.foldl (fun acc x => insertSorted le x acc) []

/-- Rust `<[String]>::sort()` order: `String`'s total order. -/
def strLe (a b : String) : Bool := !(strLt b a)

/-- catalog.rs `sort_numbers` (returning the sorted list): plain string sort
without a definition, pattern, or compiling pattern; otherwise stable sort
by `sort_key_with_regex` comparison. -/
def sort_numbers (compile : String → Option RegexFn) (numbers : List String)
    (defn : Option CatalogDefinition) : List String :=
  match defn with
  | none => sortBy strLe numbers
  | some d =>
    match d.pattern with
    | none => sortBy strLe numbers
    | some p =>
      match compile p with
      | none => sortBy strLe numbers
      | some re =>
        let mg := maxGroupOf d
        sortBy (fun a b =>
          keyLe (sort_key_with_regex a re d mg) (sort_key_with_regex b re d mg)) numbers

/-- Rust `str::starts_with` on strings (prefix of the character sequence). -/
def starts_with (s p : String) : Bool := p.data.isPrefixOf s.data

/-- catalog.rs `matches_group`: prefix test without a definition, pattern,
or compiling pattern; with a compiled pattern, false when the number does
not parse, prefix test when the group does not parse, else equality at the
`group_by` indices (default: all sort-key groups but the last) with
absent-in-both matching and any other mixed combination failing. -/
def matches_group (compile : String → Option RegexFn) (number group : String)
    (defn : Option CatalogDefinition) : Bool :=
  match defn with
  | none => starts_with number group
  | some d =>
    match d.pattern with
    | none => starts_with number group
    | some p =>
      match compile p with
      | none => starts_with number group
      | some re =>
        let maxGroup := maxGroupOf d
        match parse_number_with_regex re maxGroup number with
        | none => false
        | some num_captures =>
          match parse_number_with_regex re maxGroup group with
          | none => starts_with number group
          | some grp_captures =>
            let groups_to_compare : List Nat :=
              match d.group_by with
              | some gb => gb
              | none =>
                match d.sort_keys with
                | some sks =>
                  let groups := sks.map (fun sk => sk.group)
                  if groups.length > 1 then groups.take (groups.length - 1) else groups
                | none => []
            groups_to_compare.all (fun grp_idx =>
              if grp_idx = 0 ∨ grp_idx > maxGroup then true
              else
                match (num_captures.get? (grp_idx - 1)).join,
                      (grp_captures.get? (grp_idx - 1)).join with
                | some n, some g => n == g
                | none, none => true
                | _, _ => false)

/-- catalog.rs `is_fallback_key`: first element is the sentinel integer. -/
def is_fallback_key (key : List SortValue) : Bool :=
  match key.head? with
  | some (.Int v) => v == 999999999
  | _ => false

/-- query.rs `make_inclusive_ceiling` (helper): rewrite the trailing run of
`NoneFirst` values, scanning from the end, stopping at the first other
value; operates on the reversed key. -/
def ceilGo : List SortValue → List SortValue
  | [] => []
  | v :: rest => if v = .NoneFirst then .NoneLast :: ceilGo rest else v :: rest

/-- query.rs `make_inclusive_ceiling`: trailing `NoneFirst` fields of an
end-of-range key become `NoneLast`, so a group-shaped end bound includes all
of its sub-entries. -/
def make_inclusive_ceiling (key : List SortValue) : List SortValue :=
  (ceilGo key.reverse).reverse

/-! Concrete matchers for the patterns exercised by the specification's
examples follow. Each is the anchored, case-insensitive semantics of its
pattern; since every repetition in these patterns is of a character class
disjoint from what follows it, greedy maximal munch is exact. -/

/-- A character of `[a-z]` under `case_insensitive(true)`. -/
def isAsciiAlpha (c : Char) : Bool :=
  ('a' ≤ c && c ≤ 'z') || ('A' ≤ c && c ≤ 'Z')

/-- The opus pattern: anchored `(\d+)(?:/(\d+))?([a-z])?` with
case-insensitive compilation; capture groups 1 (major), 2 (minor),
3 (suffix letter). -/
def opusRe : RegexFn := fun s =>
  let (d1, rest) := s.data.span Char.isDigit
  if d1.isEmpty then none
  else
    match rest with
    | [] => some [some (String.mk d1), none, none]
    | '/' :: rest2 =>
      let (d2, rest3) := rest2.span Char.isDigit
      if d2.isEmpty then none
      else
        match rest3 with
        | [] => some [some (String.mk d1), some (String.mk d2), none]
        | [c] =>
          if isAsciiAlpha c then some [some (String.mk d1), some (String.mk d2), some (String.mk [c])]
          else none
        | _ => none
    | [c] =>
      if isAsciiAlpha c then some [some (String.mk d1), none, some (String.mk [c])]
      else none
    | _ => none

/-- A character of `[ivxlcdm]` under `case_insensitive(true)`. -/
def isRomanChar (c : Char) : Bool :=
  ['i', 'v', 'x', 'l', 'c', 'd', 'm', 'I', 'V', 'X', 'L', 'C', 'D', 'M'].contains c

/-- The Hoboken-style pattern: anchored `([ivxlcdm]+):(\d+)` compiled
case-insensitively; group 1 the Roman series, group 2 the number. -/
def hobRe : RegexFn := fun s =>
  let (r1, rest) := s.data.span isRomanChar
  if r1.isEmpty then none
  else
    match rest with
    | ':' :: rest2 =>
      let (d2, rest3) := rest2.span Char.isDigit
      if d2.isEmpty || !rest3.isEmpty then none
      else some [some (String.mk r1), some (String.mk d2)]
    | _ => none

/-- The plain integer pattern: anchored `(\d+)`. -/
def intRe : RegexFn := fun s =>
  let (d, rest) := s.data.span Char.isDigit
  if d.isEmpty || !rest.isEmpty then none
  else some [some (String.mk d)]

/-- The opus pattern text as it appears in a catalog definition. -/
def opusPattern : String := "^(\\d+)(?:/(\\d+))?([a-z])?$"

/-- The Hoboken pattern text. -/
def hobPattern : String := "^([ivxlcdm]+):(\\d+)$"

/-- The plain integer pattern text. -/
def intPattern : String := "^(\\d+)$"

/-- Regex-compilation oracle covering the three patterns above (any other
pattern is treated as failing to compile). -/
def compileStd : String → Option RegexFn := fun p =>
  if p = opusPattern then some opusRe
  else if p = hobPattern then some hobRe
  else if p = intPattern then some intRe
  else none

/-- The opus-style catalog definition of the specification's examples:
major/minor/suffix with int/int/str sort keys, `group_by` unset. -/
def opusDefn : CatalogDefinition :=
  { name := "Op", description := none, canonical_format := none,
    pattern := some opusPattern,
    sort_keys := some [⟨1, "int", none⟩, ⟨2, "int", none⟩, ⟨3, "str", none⟩],
    group_by := none, aliases := none, editions := none }

/-- The opus-style definition with an explicit `group_by` naming only the
major-number group. -/
def opusDefnG1 : CatalogDefinition := { opusDefn with group_by := some [1] }

/-- Hoboken-style definition parsing `i:1` .. `i:5`: roman series then
integer number. -/
def hobDefn : CatalogDefinition :=
  { name := "Hob", description := none, canonical_format := none,
    pattern := some hobPattern,
    sort_keys := some [⟨1, "roman", none⟩, ⟨2, "int", none⟩],
    group_by := none, aliases := none, editions := none }

/-- Single-integer definition with an `int` sort key. -/
def intDefn : CatalogDefinition :=
  { name := "Num", description := none, canonical_format := none,
    pattern := some intPattern,
    sort_keys := some [⟨1, "int", none⟩],
    group_by := none, aliases := none, editions := none }

/-- Association-list model of `HashMap::get`: first entry with the key. -/
def alookup (k : String) (l : List (String × α)) : Option α :=
  (l.find? (fun p => p.1 == k)).map (fun p => p.2)

/-- Association-list model of `HashMap::insert`: replace in place, append
when absent. -/
def aupdate (k : String) (v : α) : List (String × α) → List (String × α)
  | [] => [(k, v)]
  | (k', v') :: rest => if k' == k then (k, v) :: rest else (k', v') :: aupdate k v rest

/-- query.rs `QueryResult`. -/
structure QueryResult where
  id : String
  number : Option String
  superseded : Bool
  current_number : Option String
deriving DecidableEq

/-- The per-scheme index as query.rs consumes it: `current` and
`superseded` maps from catalog number to backing composition ID. -/
structure QSchemeIndex where
  current : List (String × String)
  superseded : List (String × String)
deriving DecidableEq

/-- The index as query.rs consumes it: composer list, per-composer
per-scheme current/superseded maps, and cumulative edition maps keyed by
`composer-scheme`. -/
structure QueryIndex where
  by_composer : List (String × List String)
  catalog : List (String × List (String × QSchemeIndex))
  editions : List (String × List (String × List (String × String)))
deriving DecidableEq

/-- Model of the data root: what `load_catalog_def(data_dir, scheme,
Some(composer))` resolves per scheme and composer. -/
def DataDir : Type := String → String → Option CatalogDefinition

/-- query.rs `Query`: the accumulated builder state (`data_dir` as the
definition-resolution view of the filesystem). -/
structure Query where
  composer : Option String := none
  scheme : Option String := none
  edition : Option String := none
  number : Option String := none
  group : Option String := none
  range_start : Option String := none
  range_end : Option String := none
  sorted : Bool := false
  strict : Bool := false
  data_dir : Option DataDir := none

/-- query.rs `fetch_one`: edition map lookup when an edition is set;
otherwise `current`, then (non-strict) `superseded`. -/
def fetch_one (index : QueryIndex) (q : Query) : Option String := do
  let composer ← q.composer
  let scheme ← q.scheme
  let number ← q.number
  match q.edition with
  | some edition => do
    let key := composer ++ "-" ++ scheme
    let ed ← alookup key index.editions
    let m ← alookup edition ed
    alookup number m
  | none => do
    let schemes ← alookup composer index.catalog
    let scheme_index ← alookup scheme schemes
    match alookup number scheme_index.current with
    | some id => some id
    | none =>
      if !q.strict then
        match alookup number scheme_index.superseded with
        | some id => some id
        | none => none
      else none

/-- query.rs `fetch_one_with_info`: like `fetch_one` but reporting
superseded provenance, searching `current` for an entry with the same
backing ID to report as `current_number`. -/
def fetch_one_with_info (index : QueryIndex) (q : Query) : Option QueryResult := do
  let composer ← q.composer
  let scheme ← q.scheme
  let number ← q.number
  match q.edition with
  | some edition => do
    let key := composer ++ "-" ++ scheme
    let ed ← alookup key index.editions
    let m ← alookup edition ed
    let id ← alookup number m
    some { id := id, number := some number, superseded := false, current_number := none }
  | none => do
    let schemes ← alookup composer index.catalog
    let scheme_index ← alookup scheme schemes
    match alookup number scheme_index.current with
    | some id => some { id := id, number := some number, superseded := false, current_number := none }
    | none =>
      if !q.strict then
        match alookup number scheme_index.superseded with
        | some id =>
          let current_num := (scheme_index.current.find? (fun p => p.2 == id)).map (fun p => p.1)
          some { id := id, number := some number, superseded := true, current_number := current_num }
        | none => none
      else none

/-- query.rs `fetch_by_composer`: every ID under `by_composer`, in index
order, with no number or provenance. -/
def fetch_by_composer (index : QueryIndex) (composer : String) : List QueryResult :=
  ((alookup composer index.by_composer).getD []).map (fun id =>
    { id := id, number := none, superseded := false, current_number := none })

/-- query.rs `fetch_by_scheme`: gather (number, id, superseded) entries —
`superseded` ones only when no group/range filter is active and not strict —
sort when sorting/grouping/ranging, apply the group filter (only when a
definition resolved) and the range filter (sort-key interval with inclusive
ceiling when a definition resolved, raw string interval otherwise), then
re-attach IDs and superseded provenance. -/
def fetch_by_scheme (compile : String → Option RegexFn) (index : QueryIndex)
    (q : Query) (composer scheme : String) : List QueryResult :=
  let is_range_or_group := q.range_start.isSome || q.group.isSome
  let numbers : Option (List (String × String × Bool)) :=
    match q.edition with
    | some edition =>
      match (alookup (composer ++ "-" ++ scheme) index.editions).bind (alookup edition) with
      | some n => some (n.map (fun p => (p.1, p.2, false)))
      | none => none
    | none =>
      match (alookup composer index.catalog).bind (alookup scheme) with
      | some scheme_index =>
        let entries := scheme_index.current.map (fun p => (p.1, p.2, false))
        let entries :=
          if !is_range_or_group && !q.strict then
            entries ++ scheme_index.superseded.map (fun p => (p.1, p.2, true))
          else entries
        some entries
      | none => none
  match numbers with
  | none => []
  | some numbers =>
    let keys := numbers.map (fun t => t.1)
    let defn := q.data_dir.bind (fun d => d scheme composer)
    let keys :=
      if q.sorted || q.group.isSome || q.range_start.isSome then
        sort_numbers compile keys defn
      else keys
    let keys :=
      match q.group with
      | some g =>
        match defn with
        | some d => keys.filter (fun k => matches_group compile k g (some d))
        | none => keys
      | none => keys
    let keys :=
      match q.range_start, q.range_end with
      | some start, some stop =>
        match defn with
        | some d =>
          let start_key := sort_key compile start d
          let end_key := make_inclusive_ceiling (sort_key compile stop d)
          keys.filter (fun k =>
            let k_key := sort_key compile k d
            keyGe k_key start_key && keyLe k_key end_key)
        | none => keys.filter (fun k => strLe start k && strLe k stop)
      | _, _ => keys
    let scheme_index := (alookup composer index.catalog).bind (alookup scheme)
    keys.filterMap (fun k =>
      match numbers.find? (fun t => t.1 == k) with
      | none => none
      | some (_, id, is_superseded) =>
        let current_num :=
          if is_superseded then
            scheme_index.bind (fun si =>
              (si.current.find? (fun p => p.2 == id)).map (fun p => p.1))
          else none
        some { id := id, number := some k, superseded := is_superseded,
               current_number := current_num })

/-- query.rs `fetch`: composer+scheme+number resolves a single entry, or
reinterprets the number as a group and falls through to the scheme-wide
listing; composer+scheme lists the scheme; composer alone lists the
composer's works. -/
def fetch (compile : String → Option RegexFn) (index : QueryIndex) (q : Query) :
    List QueryResult :=
  match q.composer, q.scheme, q.number with
  | some composer, some scheme, some number =>
    match fetch_one_with_info index q with
    | some result => [result]
    | none =>
      fetch_by_scheme compile index { q with number := none, group := some number }
        composer scheme
  | some composer, some scheme, none => fetch_by_scheme compile index q composer scheme
  | some composer, none, none => fetch_by_composer index composer
  | _, _, _ => []

/-- An index holding one composition under one scheme whose current number
is 331 and whose superseded number is 300i, both backed by the same
composition ID. -/
def renumberedIndex (idv : String) : QueryIndex :=
  { by_composer := [("mozart", [idv])],
    catalog := [("mozart", [("k", { current := [("331", idv)], superseded := [("300i", idv)] })])],
    editions := [] }

/-- A composer+scheme query against `renumberedIndex`. -/
def renumberedQuery (n : String) (strictFlag : Bool) : Query :=
  { composer := some "mozart", scheme := some "k", number := some n, strict := strictFlag }

/-- Data root resolving the Hoboken definition for (hob, haydn). -/
def hobDataDir : DataDir := fun scheme composer =>
  if scheme = "hob" && composer = "haydn" then some hobDefn else none

/-- An index with current entries i:1 .. i:5 under (haydn, hob). -/
def hobIndex : QueryIndex :=
  { by_composer := [("haydn", ["a1", "a2", "a3", "a4", "a5"])],
    catalog := [("haydn", [("hob",
      { current := [("i:1", "a1"), ("i:2", "a2"), ("i:3", "a3"), ("i:4", "a4"), ("i:5", "a5")],
        superseded := [] })])],
    editions := [] }

/-- The range query from i:2 to i:4 over `hobIndex`. -/
def hobRangeQuery : Query :=
  { composer := some "haydn", scheme := some "hob",
    range_start := some "i:2", range_end := some "i:4",
    data_dir := some hobDataDir }

/-- The index of the repository's group-query integration test: opus
entries 2/1, 2/2, 2/3 and 7, all current. -/
def opusIndex : QueryIndex :=
  { by_composer := [("beethoven", ["b1", "b2", "b3", "b4"])],
    catalog := [("beethoven", [("op",
      { current := [("2/1", "b1"), ("2/2", "b2"), ("2/3", "b3"), ("7", "b4")],
        superseded := [] })])],
    editions := [] }

/-- The group query for 2 over `opusIndex` with a data root that resolves
no catalog definition (none is on disk for the scheme, as in the
repository's own integration test). -/
def opusGroupQueryNoDefn : Query :=
  { composer := some "beethoven", scheme := some "op", group := some "2",
    data_dir := some (fun _ _ => none) }
/-- types.rs `Status`. -/
inductive Status where
  | certain
  | probable
  | doubtful
  | spurious
deriving DecidableEq

/-- types.rs `Dates`. -/
structure Dates where
  composed : Option Int := none
  published : Option Int := none
  premiered : Option Int := none
  revised : Option Int := none
deriving DecidableEq

/-- types.rs `CatalogEntry` (with the `note` field index.rs copies into the
built index). -/
structure CatalogEntry where
  scheme : String
  number : String
  edition : Option String := none
  since : Option String := none
  note : Option String := none
deriving DecidableEq

/-- types.rs `AttributionEntry`. -/
structure AttributionEntry where
  composer : Option String := none
  cf : Option String := none
  dates : Option Dates := none
  status : Option Status := none
  catalog : Option (List CatalogEntry) := none
  since : Option String := none
  note : Option String := none
deriving DecidableEq

/-- types.rs `Composition` (named `CompositionDoc` here to avoid clashing with the ambient mathematical `Composition`; title and the display-only movement/section and
cross-reference payloads are not consulted by the indexing and merge code
verified here and are omitted). -/
structure CompositionDoc where
  id : String
  form : String := ""
  key : Option String := none
  attribution : List AttributionEntry
deriving DecidableEq

/-- types.rs `Collection` (the fields `resolve_composer` and the merge
engine read). -/
structure Collection where
  id : String
  composer : Option String := none
  attribution : List AttributionEntry
deriving DecidableEq

/-- index.rs `IndexEntry`: a backing composition ID plus the catalog
entry's note. -/
structure IndexEntry where
  id : String
  note : Option String
deriving DecidableEq

/-- index.rs `SchemeIndex`. -/
structure SchemeIndex where
  current : List (String × IndexEntry) := []
  superseded : List (String × IndexEntry) := []
deriving DecidableEq

/-- index.rs `Index`. -/
structure Index where
  by_composer : List (String × List String) := []
  catalog : List (String × List (String × SchemeIndex)) := []
  editions : List (String × List (String × List (String × String))) := []
deriving DecidableEq

/-- index.rs `EditionEntry`: a catalog entry buffered for the cumulative
edition post-pass. -/
structure EditionEntry where
  composer : String
  scheme : String
  edition : String
  number : String
  id : String
deriving DecidableEq

/-- index.rs `add_catalog_entry`: a current entry replaces the number in
`current`; a non-current entry goes to `superseded` only when the number is
not already current. -/
def add_catalog_entry (index : Index) (composer : String) (cat : CatalogEntry)
    (id : String) (is_current : Bool) : Index :=
  let schemes := (alookup composer index.catalog).getD []
  let scheme_index := (alookup cat.scheme schemes).getD {}
  let entry : IndexEntry := { id := id, note := cat.note }
  let scheme_index' :=
    if is_current then
      { scheme_index with current := aupdate cat.number entry scheme_index.current }
    else if (alookup cat.number scheme_index.current).isSome then scheme_index
    else
      { scheme_index with superseded := aupdate cat.number entry scheme_index.superseded }
  { index with catalog := aupdate composer (aupdate cat.scheme scheme_index' schemes) index.catalog }

/-- `HashMap` grouping that preserves first-seen key order and per-key entry
order (the concrete iteration order a Rust `HashMap` leaves unspecified;
the cumulative-edition maps below are insensitive to it except for number
collisions between different compositions). -/
def addToGroup [BEq κ] (k : κ) (e : α) : List (κ × List α) → List (κ × List α)
  | [] => [(k, [e])]
  | (k', es) :: rest =>
    if k' == k then (k', es ++ [e]) :: rest else (k', es) :: addToGroup k e rest

/-- Collect the distinct edition labels in first-seen order. -/
def distinctEditions (entries : List EditionEntry) : List String :=
  entries.foldl (fun acc e => if acc.contains e.edition then acc else acc ++ [e.edition]) []

/-- Rust `Iterator::max_by_key` over edition labels parsed as `i32`:
the last maximal element. -/
def maxByEdition (entries : List EditionEntry) : Option EditionEntry :=
  entries.foldl (fun best e =>
    match best with
    | none => some e
    | some b => if parse_i32 b.edition ≤ parse_i32 e.edition then some e else some b) none

/-- The cumulative map of one edition: per composition ID, the number of
its entry with the highest edition label not exceeding the target. -/
def editionMapFor (byId : List (String × List EditionEntry)) (edition_num : Int) :
    List (String × String) :=
  byId.foldl (fun m p =>
    match maxByEdition (p.2.filter (fun e => parse_i32 e.edition ≤ edition_num)) with
    | some entry => aupdate entry.number p.1 m
    | none => m) []

/-- index.rs `build_cumulative_editions`: group buffered entries per
(composer, scheme), sort the distinct edition labels numerically, and for
each label record, per composition, the number at the highest edition label
not exceeding it. -/
def build_cumulative_editions (index : Index) (entries : List EditionEntry) : Index :=
  let by_scheme := entries.foldl (fun acc e => addToGroup (e.composer, e.scheme) e acc) []
  by_scheme.foldl (fun index p =>
    let scheme_entries := p.2
    let editions := sortBy (fun a b => !(parse_i32 b < parse_i32 a)) (distinctEditions scheme_entries)
    let by_id := scheme_entries.foldl (fun acc e => addToGroup e.id e acc) []
    let key := p.1.1 ++ "-" ++ p.1.2
    editions.foldl (fun index edition =>
      let edition_map := editionMapFor by_id (parse_i32 edition)
      let existing := (alookup key index.editions).getD []
      { index with editions := aupdate key (aupdate edition edition_map existing) index.editions })
      index) index

/-- index.rs `resolve_composer`: the entry's explicit composer, else the
first attribution composer of the referenced collection (collection lookup
modelled as a function from reference ID to the loaded record; a failed
load is `none`). -/
def resolve_composer (collections : String → Option Collection)
    (attr : AttributionEntry) : Option String :=
  match attr.composer with
  | some composer => some composer
  | none =>
    match attr.cf with
    | some cf =>
      match collections cf with
      | some collection => collection.attribution.head?.bind (fun a => a.composer)
      | none => none
    | none => none

/-- The per-document scan state of `build_index`: the index under
construction, the buffered edition entries, and the per-document
`composers_seen` and `scheme_first_seen` sets. -/
structure BuildSt where
  index : Index
  ed_entries : List EditionEntry
  seen : List String
  sfs : List (String × String)

/-- `by_composer.entry(composer).or_default().push(id)`. -/
def apush (k v : String) : List (String × List String) → List (String × List String)
  | [] => [(k, [v])]
  | (k', vs) :: rest =>
    if k' == k then (k', vs ++ [v]) :: rest else (k', vs) :: apush k v rest

/-- The inner catalog loop of `build_index`: an entry is current for its
(composer, scheme) the first time that pair occurs in the document's own
entry order; entries tagged with an edition are buffered. -/
def processCat (comp_id composer : String) (st : BuildSt) (cat : CatalogEntry) : BuildSt :=
  let key := (composer, cat.scheme)
  let is_current := !(st.sfs.contains key)
  let index' := add_catalog_entry st.index composer cat comp_id is_current
  let ed' :=
    match cat.edition with
    | some edition =>
      st.ed_entries ++ [{ composer := composer, scheme := cat.scheme, edition := edition,
                          number := cat.number, id := comp_id }]
    | none => st.ed_entries
  { index := index', ed_entries := ed', seen := st.seen, sfs := key :: st.sfs }

/-- The attribution loop of `build_index`: resolve the effective composer,
register the composition under `by_composer` the first time that composer
occurs for this document, then process the entry's catalog list. -/
def processAttr (collections : String → Option Collection) (comp_id : String)
    (st : BuildSt) (attr : AttributionEntry) : BuildSt :=
  match resolve_composer collections attr with
  | none => st
  | some composer =>
    let st1 :=
      if st.seen.contains composer then st
      else
        { st with
          index := { st.index with by_composer := apush composer comp_id st.index.by_composer },
          seen := composer :: st.seen }
    match attr.catalog with
    | none => st1
    | some catalog => catalog.foldl (processCat comp_id composer) st1

/-- One document of the `build_index` scan (fresh per-document seen-sets). -/
def processDoc (collections : String → Option Collection)
    (st : Index × List EditionEntry) (comp : CompositionDoc) : Index × List EditionEntry :=
  let stF := comp.attribution.foldl (processAttr collections comp.id)
    { index := st.1, ed_entries := st.2, seen := [], sfs := [] }
  (stF.index, stF.ed_entries)

/-- index.rs `build_index` over an already-loaded document list (the
filesystem walk, whose unreadable or non-JSON files are skipped, is
modelled by the list itself): the single scan followed by the cumulative
edition post-pass. -/
def build_index (collections : String → Option Collection)
    (docs : List CompositionDoc) : Index :=
  let st := docs.foldl (processDoc collections) ({}, [])
  build_cumulative_editions st.1 st.2

/-- The scheme index the built `Index` holds for a composer and scheme
(empty when absent). -/
def getSchemeIndex (index : Index) (composer scheme : String) : SchemeIndex :=
  ((alookup composer index.catalog).bind (alookup scheme)).getD {}

/-- The buffered edition entries of the renumbering scenario: one work
recorded as 300i at edition 1 and renumbered 331 at edition 9, a second
work recorded once at edition 1. -/
def renumberEditionEntries : List EditionEntry :=
  [{ composer := "mozart", scheme := "k", edition := "1", number := "300i", id := "id1" },
   { composer := "mozart", scheme := "k", edition := "9", number := "331", id := "id1" },
   { composer := "mozart", scheme := "k", edition := "1", number := "545", id := "id2" }]

/-- The edition map the built cumulative index holds for `mozart-k` at a
label (empty when absent). -/
def editionMapAt (index : Index) (key edition : String) : List (String × String) :=
  ((alookup key index.editions).bind (alookup edition)).getD []

/-- A document whose single attribution lists two entries of one scheme:
the first entry's number becomes current, the second superseded. -/
def docTwoNumbers : CompositionDoc :=
  { id := "d1",
    attribution := [{ composer := some "c",
                      catalog := some [{ scheme := "s", number := "A" },
                                       { scheme := "s", number := "B" }] }] }

/-- A later document of a different composition claiming number B in the
same scheme as its (first, hence current) entry. -/
def docReusesB : CompositionDoc :=
  { id := "d2",
    attribution := [{ composer := some "c",
                      catalog := some [{ scheme := "s", number := "B" }] }] }

/-- The `if base.field.is_none() { base.field = overlay.field }` pattern of
merge.rs: keep the first set value. -/
def opt_or (a b : Option α) : Option α :=
  match a with
  | some x => some x
  | none => b

/-- merge.rs `MergedAttribution`. -/
structure MergedAttribution where
  composer : Option String := none
  dates : Dates := {}
  status : Option Status := none
  catalog : List CatalogEntry := []
  notes : List String := []
deriving DecidableEq

/-- merge.rs `merge_dates`: field-by-field, the first non-empty value wins. -/
def merge_dates (base overlay : Dates) : Dates :=
  { composed := opt_or base.composed overlay.composed,
    published := opt_or base.published overlay.published,
    premiered := opt_or base.premiered overlay.premiered,
    revised := opt_or base.revised overlay.revised }

/-- The loop body of `merge_attribution`: composer only if still unset,
dates merged when present, catalog concatenated, note appended. -/
def mergeStep (result : MergedAttribution) (entry : AttributionEntry) : MergedAttribution :=
  { composer := opt_or result.composer entry.composer,
    dates :=
      match entry.dates with
      | some dates => merge_dates result.dates dates
      | none => result.dates,
    status := result.status,
    catalog := result.catalog ++ entry.catalog.getD [],
    notes :=
      match entry.note with
      | some note => result.notes ++ [note]
      | none => result.notes }

/-- merge.rs `merge_attribution`: status from the first entry only, then
the fold over all entries in order. -/
def merge_attribution (entries : List AttributionEntry) : MergedAttribution :=
  entries.foldl mergeStep { status := entries.head?.bind (fun e => e.status) }

/-!  ## Theorems -/

/-! Order-theoretic facts about the embedded comparators, used by the
claims about the sort-key algebra. -/

theorem char_toNat_inj (a b : Char) (h : a.toNat = b.toNat) : a = b :=
  Char.eq_of_val_eq (UInt32.toNat.inj h)


theorem charsLt_irrefl (l : List Char) : charsLt l l = false := by
  induction l with
  | nil => rfl
  | cons c cs ih => simp [charsLt, ih]


theorem charsLt_trans (a : List Char) :
    ∀ b c, charsLt a b = true → charsLt b c = true → charsLt a c = true := by
  induction a with
  | nil =>
    intro b c hab hbc
    cases b with
    | nil => simp [charsLt] at hab
    | cons y ys =>
      cases c with
      | nil => simp [charsLt] at hbc
      | cons z zs => simp [charsLt]
  | cons x xs ih =>
    intro b c hab hbc
    cases b with
    | nil => simp [charsLt] at hab
    | cons y ys =>
      cases c with
      | nil => simp [charsLt] at hbc
      | cons z zs =>
        simp only [charsLt] at hab hbc ⊢
        by_cases h1 : x.toNat < y.toNat <;> by_cases h2 : y.toNat < z.toNat <;>
          simp [h1, h2] at hab hbc ⊢
        · omega
        · obtain ⟨hyz, _⟩ := hbc
          have h3 : x.toNat < z.toNat := by omega
          simp [h3]
        · obtain ⟨hxy, _⟩ := hab
          have h3 : x.toNat < z.toNat := by omega
          simp [h3]
        · obtain ⟨hxy, hab'⟩ := hab
          obtain ⟨hyz, hbc'⟩ := hbc
          have h3 : ¬ x.toNat < z.toNat := by omega
          have h4 : x.toNat = z.toNat := by omega
          simp [h3, h4]
          exact ih ys zs hab' hbc'


theorem charsLt_conn (a : List Char) :
    ∀ b, charsLt a b = false → charsLt b a = false → a = b := by
  induction a with
  | nil =>
    intro b h1 _
    cases b with
    | nil => rfl
    | cons y ys => simp [charsLt] at h1
  | cons x xs ih =>
    intro b h1 h2
    cases b with
    | nil => simp [charsLt] at h2
    | cons y ys =>
      simp only [charsLt] at h1 h2
      by_cases hxy : x.toNat < y.toNat
      · simp [hxy] at h1
      · by_cases hyx : y.toNat < x.toNat
        · simp [hyx] at h2
        · have he : x.toNat = y.toNat := by omega
          simp [hxy, he] at h1
          simp [hyx, he.symm] at h2
          rw [char_toNat_inj x y he, ih ys h1 h2]


theorem strLt_irrefl (a : String) : strLt a a = false := charsLt_irrefl a.data


theorem strLt_trans (a b c : String) (h1 : strLt a b = true) (h2 : strLt b c = true) :
    strLt a c = true := charsLt_trans a.data b.data c.data h1 h2


theorem strLt_conn (a b : String) (h1 : strLt a b = false) (h2 : strLt b a = false) :
    a = b := by
  cases a; cases b
  exact congrArg String.mk (charsLt_conn _ _ h1 h2)


theorem svCmp_eq_iff (a b : SortValue) : a.cmp b = .eq ↔ a = b := by
  cases a <;> cases b <;> simp [SortValue.cmp]
  · omega
  · rename_i a b
    intro h
    subst h
    exact strLt_irrefl a


theorem strLt_asymm (a b : String) (h : strLt a b = true) : strLt b a = false := by
  by_contra hc
  rw [Bool.not_eq_false] at hc
  have := strLt_trans a b a h hc
  simp [strLt_irrefl] at this


theorem svCmp_lt_iff_gt (a b : SortValue) : a.cmp b = .lt ↔ b.cmp a = .gt := by
  cases a <;> cases b <;> simp [SortValue.cmp]
  · omega
  · rename_i a b
    constructor
    · intro h
      refine ⟨strLt_asymm _ _ h, ?_⟩
      intro e
      subst e
      simp [strLt_irrefl] at h
    · intro hp
      obtain ⟨h1, h2⟩ := hp
      by_contra hc
      rw [Bool.not_eq_true] at hc
      exact h2 (strLt_conn a b hc h1).symm


theorem svCmp_trans (a b c : SortValue) (h1 : a.cmp b = .lt) (h2 : b.cmp c = .lt) :
    a.cmp c = .lt := by
  cases a <;> cases b <;> cases c <;> simp_all [SortValue.cmp]
  · omega
  · exact strLt_trans _ _ _ h1 h2


theorem keyCmp_eq_iff (a : List SortValue) : ∀ b, keyCmp a b = .eq ↔ a = b := by
  induction a with
  | nil => intro b; cases b <;> simp [keyCmp]
  | cons x xs ih =>
    intro b
    cases b with
    | nil => simp [keyCmp]
    | cons y ys =>
      simp only [keyCmp]
      cases h : SortValue.cmp x y with
      | eq =>
        have hxy := (svCmp_eq_iff x y).mp h
        subst hxy
        simp [ih]
      | lt =>
        simp only [List.cons.injEq]
        constructor
        · intro hfalse
          simp at hfalse
        · intro hp
          obtain ⟨hx, _⟩ := hp
          subst hx
          rw [(svCmp_eq_iff x x).mpr rfl] at h
          simp at h
      | gt =>
        simp only [List.cons.injEq]
        constructor
        · intro hfalse
          simp at hfalse
        · intro hp
          obtain ⟨hx, _⟩ := hp
          subst hx
          rw [(svCmp_eq_iff x x).mpr rfl] at h
          simp at h


theorem keyCmp_lt_iff_gt (a : List SortValue) : ∀ b, keyCmp a b = .lt ↔ keyCmp b a = .gt := by
  induction a with
  | nil => intro b; cases b <;> simp [keyCmp]
  | cons x xs ih =>
    intro b
    cases b with
    | nil => simp [keyCmp]
    | cons y ys =>
      simp only [keyCmp]
      cases h : SortValue.cmp x y with
      | eq =>
        have hxy := (svCmp_eq_iff x y).mp h
        subst hxy
        rw [(svCmp_eq_iff x x).mpr rfl]
        exact ih ys
      | lt =>
        have h' : SortValue.cmp y x = .gt := (svCmp_lt_iff_gt x y).mp h
        rw [h']
        simp
      | gt =>
        have h' : SortValue.cmp y x = .lt := (svCmp_lt_iff_gt y x).mpr h
        rw [h']
        simp


theorem keyCmp_trans (a : List SortValue) :
    ∀ b c, keyCmp a b = .lt → keyCmp b c = .lt → keyCmp a c = .lt := by
  induction a with
  | nil =>
    intro b c h1 h2
    cases b with
    | nil => simp [keyCmp] at h1
    | cons y ys =>
      cases c with
      | nil => simp [keyCmp] at h2
      | cons z zs => simp [keyCmp]
  | cons x xs ih =>
    intro b c h1 h2
    cases b with
    | nil => simp [keyCmp] at h1
    | cons y ys =>
      cases c with
      | nil => simp [keyCmp] at h2
      | cons z zs =>
        simp only [keyCmp] at h1 h2 ⊢
        cases hxy : SortValue.cmp x y with
        | gt => rw [hxy] at h1; simp at h1
        | lt =>
          cases hyz : SortValue.cmp y z with
          | gt => rw [hyz] at h2; simp at h2
          | lt => rw [svCmp_trans x y z hxy hyz]
          | eq =>
            have hy := (svCmp_eq_iff y z).mp hyz
            subst hy
            rw [hxy]
        | eq =>
          have hx := (svCmp_eq_iff x y).mp hxy
          subst hx
          rw [(svCmp_eq_iff x x).mpr rfl] at h1
          cases hxz : SortValue.cmp x z with
          | gt => rw [hxz] at h2; simp at h2
          | lt => rfl
          | eq =>
            rw [hxz] at h2
            exact ih ys zs h1 h2


/-- C1: in an index whose scheme holds 331 in `current` and 300i in
`superseded`, both backed by the same composition, a composer+scheme+number
query finds the composition by either number in non-strict mode, returns
none for 300i under `strict`, and the non-strict result for 300i is marked
superseded with `current_number = 331` (found by searching `current` for an
entry with the same backing ID). -/
theorem fetch_one_superseded_lookup (idv : String) :
    fetch_one (renumberedIndex idv) (renumberedQuery "331" false) = some idv
    ∧ fetch_one (renumberedIndex idv) (renumberedQuery "300i" false) = some idv
    ∧ fetch_one (renumberedIndex idv) (renumberedQuery "300i" true) = none
    ∧ fetch_one_with_info (renumberedIndex idv) (renumberedQuery "300i" false) =
        some { id := idv, number := some "300i", superseded := true,
               current_number := some "331" } := by
  refine ⟨rfl, rfl, rfl, ?_⟩
  simp [fetch_one_with_info, renumberedIndex, renumberedQuery, alookup, List.find?]

/-- C2 counterexample: under the opus pattern with int/int/str sort keys
and `group_by` unset (so the default, all sort-key indices except the last,
is used), `matches_group("2/1", "2")` is false — the minor number is
present in the number but absent in the group, which the stated rule makes
a failing combination. -/
theorem matches_group_minor_absent_fails :
    matches_group compileStd "2/1" "2" (some opusDefn) = false := by decide

/-- C2 amended: with the opus pattern, `matches_group("2","2")` is true and
`matches_group("10","2")` is false under the default `group_by`; the
sub-number memberships `matches_group("2/1","2")` and
`matches_group("2/2","2")` hold only when the definition names just the
major-number group, `group_by = [1]`. -/
theorem matches_group_opus_examples :
    matches_group compileStd "2" "2" (some opusDefn) = true
    ∧ matches_group compileStd "10" "2" (some opusDefn) = false
    ∧ matches_group compileStd "2" "2" (some opusDefnG1) = true
    ∧ matches_group compileStd "2/1" "2" (some opusDefnG1) = true
    ∧ matches_group compileStd "2/2" "2" (some opusDefnG1) = true
    ∧ matches_group compileStd "10" "2" (some opusDefnG1) = false := by decide

/-- C3: over current entries i:1 .. i:5, the range query from i:2 to i:4
returns exactly the three entries i:2, i:3 and i:4 — the filter keeps the
numbers whose sort key lies between the start key and the inclusive ceiling
of the end key. -/
theorem range_query_inclusive :
    fetch compileStd hobIndex hobRangeQuery =
      [{ id := "a2", number := some "i:2", superseded := false, current_number := none },
       { id := "a3", number := some "i:3", superseded := false, current_number := none },
       { id := "a4", number := some "i:4", superseded := false, current_number := none }] := by
  decide

/-- C4: in the cumulative edition maps built for (mozart, k) from a work
recorded as 300i at edition 1 and renumbered 331 at edition 9 plus a second
work recorded once at edition 1, edition 1 holds 300i and 545 but not 331,
and edition 9 holds 331 and 545 but not 300i. -/
theorem cumulative_editions_renumbering :
    (alookup "300i" (editionMapAt (build_cumulative_editions {} renumberEditionEntries) "mozart-k" "1")
       = some "id1")
    ∧ (alookup "331" (editionMapAt (build_cumulative_editions {} renumberEditionEntries) "mozart-k" "1")
       = none)
    ∧ (alookup "331" (editionMapAt (build_cumulative_editions {} renumberEditionEntries) "mozart-k" "9")
       = some "id1")
    ∧ (alookup "300i" (editionMapAt (build_cumulative_editions {} renumberEditionEntries) "mozart-k" "9")
       = none)
    ∧ (alookup "545" (editionMapAt (build_cumulative_editions {} renumberEditionEntries) "mozart-k" "1")
       = some "id2")
    ∧ (alookup "545" (editionMapAt (build_cumulative_editions {} renumberEditionEntries) "mozart-k" "9")
       = some "id2") := by decide

/-- C5 counterexample: scanning a document whose scheme entries are A then
B (B becomes superseded) and a later document of a different composition
whose first entry claims B (B becomes current, since `scheme_first_seen`
is reset per document), the built index holds B in both `current` and
`superseded` of the same (composer, scheme). -/
theorem built_index_number_in_both_maps :
    (alookup "B" (getSchemeIndex (build_index (fun _ => none) [docTwoNumbers, docReusesB]) "c" "s").current).isSome
    ∧ (alookup "B" (getSchemeIndex (build_index (fun _ => none) [docTwoNumbers, docReusesB]) "c" "s").superseded).isSome := by
  decide

/-- C9: the failing input of the repository's own group-query test — with
entries 2/1, 2/2, 2/3 and 7 current and no catalog definition resolvable
for the scheme, the group query for 2 returns all four entries unfiltered
(the code only applies `matches_group` when a definition resolved), even
though 7 fails the documented raw-prefix fallback. -/
theorem group_query_without_definition_unfiltered :
    ((fetch compileStd opusIndex opusGroupQueryNoDefn).map (fun r => r.number) =
      [some "2/1", some "2/2", some "2/3", some "7"])
    ∧ starts_with "7" "2" = false := by decide

/-- C6 counterexample: the sentinel key is NOT greater than the sort key of
every number matching the pattern — under the plain integer definition,
1000000000 matches and its key `[Int 1000000000]` exceeds the sentinel
`[Int 999999999, Str "x"]` of the non-matching "x", so the malformed number
sorts before a well-formed one. -/
theorem sentinel_not_after_all_wellformed :
    intRe "x" = none
    ∧ (intRe "1000000000").isSome = true
    ∧ sort_key compileStd "x" intDefn = [SortValue.Int 999999999, SortValue.Str "x"]
    ∧ sort_key compileStd "1000000000" intDefn = [SortValue.Int 1000000000]
    ∧ keyCmp (sort_key compileStd "x" intDefn) (sort_key compileStd "1000000000" intDefn)
        = Ordering.lt := by decide

/-- C6 amended: a non-compiling pattern or a non-matching number always
yields exactly the sentinel key `[Int 999999999, Str raw]`; the sentinel
exceeds the key of every matching number whose key starts with an integer
below 999999999 (not of every matching number); and sentinel keys compare
among themselves by their raw text. -/
theorem sort_key_sentinel :
    (∀ (compile : String → Option RegexFn) (defn : CatalogDefinition) (number p : String),
       defn.pattern = some p → compile p = none →
       sort_key compile number defn = [SortValue.Int 999999999, SortValue.Str number])
    ∧ (∀ (compile : String → Option RegexFn) (defn : CatalogDefinition) (number p : String)
         (re : RegexFn),
       defn.pattern = some p → compile p = some re → re number = none →
       sort_key compile number defn = [SortValue.Int 999999999, SortValue.Str number])
    ∧ (∀ (v : Int) (rest : List SortValue) (s : String), v < 999999999 →
       keyCmp (SortValue.Int v :: rest) [SortValue.Int 999999999, SortValue.Str s] = Ordering.lt)
    ∧ (∀ a b : String,
       keyCmp [SortValue.Int 999999999, SortValue.Str a] [SortValue.Int 999999999, SortValue.Str b]
         = Ordering.lt ↔ strLt a b = true) := by
  refine ⟨?_, ?_, ?_, ?_⟩
  · intro compile defn number p hp hc
    simp [sort_key, hp, hc]
  · intro compile defn number p re hp hc hre
    simp [sort_key, hp, hc, sort_key_with_regex, parse_number_with_regex, hre]
  · intro v rest s h
    simp [keyCmp, SortValue.cmp, h]
  · intro a b
    simp only [keyCmp, SortValue.cmp]
    split_ifs with h1 h2 <;> simp_all

/-- Witness for the sentinel theorem: a definition whose pattern does not
compile, a number that does not match, and a well-formed small key, each at
a concrete input. -/
theorem sort_key_sentinel_witness :
    sort_key compileStd "5" { intDefn with pattern := some "oops" }
        = [SortValue.Int 999999999, SortValue.Str "5"]
    ∧ sort_key compileStd "x" intDefn = [SortValue.Int 999999999, SortValue.Str "x"]
    ∧ keyCmp [SortValue.Int 5] [SortValue.Int 999999999, SortValue.Str "x"] = Ordering.lt
    ∧ (keyCmp [SortValue.Int 999999999, SortValue.Str "a"]
         [SortValue.Int 999999999, SortValue.Str "b"] = Ordering.lt) :=
  ⟨sort_key_sentinel.1 compileStd _ "5" "oops" rfl rfl,
   sort_key_sentinel.2.1 compileStd intDefn "x" intPattern intRe rfl rfl rfl,
   sort_key_sentinel.2.2.1 5 [] "x" (by decide),
   (sort_key_sentinel.2.2.2 "a" "b").mpr (by decide)⟩

/-- C7 counterexample: two distinct well-formed numbers with textually
different captured fields produce equal sort keys — "01" and "1" both match
the integer pattern, capture "01" and "1" respectively, and both key to
`[Int 1]`. -/
theorem sort_key_collision_distinct_numbers :
    sort_key compileStd "01" intDefn = sort_key compileStd "1" intDefn
    ∧ parse_number_with_regex intRe 1 "01" = some [some "01"]
    ∧ parse_number_with_regex intRe 1 "1" = some [some "1"]
    ∧ "01" ≠ "1" := by decide

/-- C7 amended: the sort-key comparison is a total order on keys — `eq`
exactly on equal keys, `lt`/`gt` swap under argument exchange, and `lt` is
transitive — and numbers with identical captures get identical keys (under
declared sort keys); but equal keys do not force textually identical
captured fields. -/
theorem sort_key_order_properties :
    (∀ a b : List SortValue, keyCmp a b = Ordering.eq ↔ a = b)
    ∧ (∀ a b : List SortValue, keyCmp a b = Ordering.lt ↔ keyCmp b a = Ordering.gt)
    ∧ (∀ a b c : List SortValue,
        keyCmp a b = Ordering.lt → keyCmp b c = Ordering.lt → keyCmp a c = Ordering.lt)
    ∧ (∀ (re : RegexFn) (mg : Nat) (defn : CatalogDefinition) (n1 n2 : String)
         (caps : List (Option String)),
        defn.sort_keys.isSome = true →
        parse_number_with_regex re mg n1 = some caps →
        parse_number_with_regex re mg n2 = some caps →
        sort_key_with_regex n1 re defn mg = sort_key_with_regex n2 re defn mg) := by
  refine ⟨fun a b => keyCmp_eq_iff a b, fun a b => keyCmp_lt_iff_gt a b,
    fun a b c => keyCmp_trans a b c, ?_⟩
  intro re mg defn n1 n2 caps hsk h1 h2
  cases hs : defn.sort_keys with
  | none => rw [hs] at hsk; simp at hsk
  | some sks => simp [sort_key_with_regex, h1, h2, hs]

/-- Witness for the order-properties theorem: transitivity, reflexive
equality and capture-determined keys, each at a concrete input. -/
theorem sort_key_order_properties_witness :
    keyCmp [SortValue.Int 1] [SortValue.Int 3] = Ordering.lt
    ∧ keyCmp [SortValue.Int 2] [SortValue.Int 2] = Ordering.eq
    ∧ sort_key_with_regex "01" intRe intDefn 1 = sort_key_with_regex "01" intRe intDefn 1 :=
  ⟨sort_key_order_properties.2.2.1 [SortValue.Int 1] [SortValue.Int 2] [SortValue.Int 3]
     (by decide) (by decide),
   (sort_key_order_properties.1 [SortValue.Int 2] [SortValue.Int 2]).mpr rfl,
   sort_key_order_properties.2.2.2 intRe 1 intDefn "01" "01" [some "01"]
     (by decide) (by decide) (by decide)⟩

/-- A list is a prefix of itself (Rust `starts_with` is reflexive). -/
theorem isPrefixOf_self [BEq α] [LawfulBEq α] (l : List α) : l.isPrefixOf l = true := by
  induction l with
  | nil => rfl
  | cons x xs ih => simp [List.isPrefixOf, ih]

/-- C10: with a compiled pattern, a number that does not match it is not a
member of even its own group, while a matching number always is; without a
definition the prefix test makes self-membership unconditional. -/
theorem matches_group_self_membership :
    (∀ (compile : String → Option RegexFn) (defn : CatalogDefinition) (number p : String)
       (re : RegexFn),
       defn.pattern = some p → compile p = some re → re number = none →
       matches_group compile number number (some defn) = false)
    ∧ (∀ (compile : String → Option RegexFn) (number : String),
       matches_group compile number number none = true)
    ∧ (∀ (compile : String → Option RegexFn) (defn : CatalogDefinition) (number p : String)
       (re : RegexFn) (caps : List (Option String)),
       defn.pattern = some p → compile p = some re → re number = some caps →
       matches_group compile number number (some defn) = true) := by
  refine ⟨?_, ?_, ?_⟩
  · intro compile defn number p re hp hc hre
    simp [matches_group, hp, hc, parse_number_with_regex, hre]
  · intro compile number
    simp [matches_group, starts_with, isPrefixOf_self]
  · intro compile defn number p re caps hp hc hre
    have hparse : parse_number_with_regex re (maxGroupOf defn) number
        = some ((List.range (maxGroupOf defn)).map (fun i => (caps.get? i).join)) := by
      simp [parse_number_with_regex, hre]
    simp only [matches_group, hp, hc, hparse]
    rw [List.all_eq_true]
    intro idx _
    split_ifs with hb
    · rfl
    · cases hj : (((List.range (maxGroupOf defn)).map
          (fun i => (caps.get? i).join)).get? (idx - 1)).join with
      | none => simp [hj]
      | some n => simp [hj]

/-- Witness for self-membership: the opus pattern at a non-matching, a
definition-free, and a matching concrete number. -/
theorem matches_group_self_membership_witness :
    matches_group compileStd "abc" "abc" (some opusDefn) = false
    ∧ matches_group compileStd "2/1" "2/1" none = true
    ∧ matches_group compileStd "2/1" "2/1" (some opusDefn) = true :=
  ⟨matches_group_self_membership.1 compileStd opusDefn "abc" opusPattern opusRe rfl rfl rfl,
   matches_group_self_membership.2.1 compileStd "2/1",
   matches_group_self_membership.2.2 compileStd opusDefn "2/1" opusPattern opusRe
     [some "2", some "1", none] rfl rfl rfl⟩

/-- Looking a key up right after updating it finds the new value. -/
theorem alookup_aupdate_self (k : String) (v : α) (l : List (String × α)) :
    alookup k (aupdate k v l) = some v := by
  induction l with
  | nil => simp [aupdate, alookup, List.find?]
  | cons p rest ih =>
    by_cases h : p.1 == k
    · simp [aupdate, h, alookup, List.find?]
    · simp only [aupdate, h]
      simpa [alookup, List.find?, h] using ih

/-- Unfolding of `getSchemeIndex` by the outcome of the composer lookup. -/
theorem getSchemeIndex_eq (index : Index) (composer scheme : String) :
    getSchemeIndex index composer scheme
      = match alookup composer index.catalog with
        | none => {}
        | some schemes => (alookup scheme schemes).getD {} := by
  unfold getSchemeIndex
  cases alookup composer index.catalog <;> simp

/-- C5 amended: a number already present in `current` for a (composer,
scheme) is never pushed to `superseded` — processing a further non-current
entry for it leaves the scheme's state entirely unchanged. (The maps are
nonetheless not disjoint in general: a superseded record processed before
the entry that makes the number current stays behind, as the counterexample
shows.) -/
theorem add_catalog_entry_never_downgrades (index : Index) (composer : String)
    (cat : CatalogEntry) (id : String)
    (h : (alookup cat.number (getSchemeIndex index composer cat.scheme).current).isSome = true) :
    getSchemeIndex (add_catalog_entry index composer cat id false) composer cat.scheme
      = getSchemeIndex index composer cat.scheme := by
  rw [getSchemeIndex_eq] at h
  cases hcomp : alookup composer index.catalog with
  | none =>
    exfalso
    simp only [hcomp] at h
    simp [alookup] at h
  | some schemes =>
    simp only [hcomp] at h
    cases hs : alookup cat.scheme schemes with
    | none =>
      exfalso
      simp only [hs, Option.getD_none] at h
      simp [alookup] at h
    | some si =>
      simp only [hs, Option.getD_some] at h
      simp [getSchemeIndex_eq, add_catalog_entry, hcomp, hs, h, alookup_aupdate_self]

/-- Witness for never-downgrades: a concrete index whose scheme already
holds B current is unchanged by a later superseded claim of B. -/
theorem add_catalog_entry_never_downgrades_witness :
    getSchemeIndex
        (add_catalog_entry (add_catalog_entry {} "c" { scheme := "s", number := "B" } "d1" true)
          "c" { scheme := "s", number := "B" } "d2" false) "c" "s"
      = getSchemeIndex (add_catalog_entry {} "c" { scheme := "s", number := "B" } "d1" true) "c" "s" :=
  add_catalog_entry_never_downgrades _ "c" { scheme := "s", number := "B" } "d2" (by decide)

/-- `opt_or` keeps its first argument when the second is absent. -/
theorem opt_or_none (a : Option α) : opt_or a none = a := by cases a <;> rfl

/-- `opt_or` is associative. -/
theorem opt_or_assoc (a b c : Option α) : opt_or (opt_or a b) c = opt_or a (opt_or b c) := by
  cases a <;> rfl

/-- `findSome?` over a cons is the head result or else the tail search. -/
theorem findSome?_cons_opt (f : α → Option β) (a : α) (l : List α) :
    List.findSome? f (a :: l) = opt_or (f a) (List.findSome? f l) := by
  cases h : f a <;> simp [List.findSome?_cons, h, opt_or]

/-- The fold of `merge_attribution` from an arbitrary accumulator: status
untouched; composer and each date field resolved first-wins; catalog and
notes appended in entry order. -/
theorem mergeStep_foldl_spec (entries : List AttributionEntry) :
    ∀ r : MergedAttribution,
      (entries.foldl mergeStep r).status = r.status
      ∧ (entries.foldl mergeStep r).composer
          = opt_or r.composer (entries.findSome? (fun e => e.composer))
      ∧ (entries.foldl mergeStep r).dates.composed
          = opt_or r.dates.composed
              (entries.findSome? (fun e => e.dates.bind (fun d => d.composed)))
      ∧ (entries.foldl mergeStep r).dates.published
          = opt_or r.dates.published
              (entries.findSome? (fun e => e.dates.bind (fun d => d.published)))
      ∧ (entries.foldl mergeStep r).dates.premiered
          = opt_or r.dates.premiered
              (entries.findSome? (fun e => e.dates.bind (fun d => d.premiered)))
      ∧ (entries.foldl mergeStep r).dates.revised
          = opt_or r.dates.revised
              (entries.findSome? (fun e => e.dates.bind (fun d => d.revised)))
      ∧ (entries.foldl mergeStep r).catalog
          = r.catalog ++ (entries.map (fun e => e.catalog.getD [])).flatten
      ∧ (entries.foldl mergeStep r).notes
          = r.notes ++ entries.filterMap (fun e => e.note) := by
  induction entries with
  | nil => intro r; simp [opt_or_none]
  | cons e tl ih =>
    intro r
    simp only [List.foldl_cons]
    obtain ⟨h1, h2, h3, h4, h5, h6, h7, h8⟩ := ih (mergeStep r e)
    refine ⟨h1.trans rfl, ?_, ?_, ?_, ?_, ?_, ?_, ?_⟩
    · rw [h2, findSome?_cons_opt]
      show opt_or (opt_or r.composer e.composer) _ = _
      rw [opt_or_assoc]
    · rw [h3, findSome?_cons_opt]
      cases hd : e.dates with
      | none => simp [mergeStep, hd, opt_or]
      | some d => simp [mergeStep, hd, merge_dates, opt_or_assoc]
    · rw [h4, findSome?_cons_opt]
      cases hd : e.dates with
      | none => simp [mergeStep, hd, opt_or]
      | some d => simp [mergeStep, hd, merge_dates, opt_or_assoc]
    · rw [h5, findSome?_cons_opt]
      cases hd : e.dates with
      | none => simp [mergeStep, hd, opt_or]
      | some d => simp [mergeStep, hd, merge_dates, opt_or_assoc]
    · rw [h6, findSome?_cons_opt]
      cases hd : e.dates with
      | none => simp [mergeStep, hd, opt_or]
      | some d => simp [mergeStep, hd, merge_dates, opt_or_assoc]
    · rw [h7]
      simp [mergeStep]
    · rw [h8]
      cases hn : e.note with
      | none => simp [mergeStep, hn]
      | some n => simp [mergeStep, hn]

/-- C8: `merge_attribution` takes status from the first entry alone, the
first non-empty composer, the first non-empty value of each date field,
the concatenation in entry order of every entry's catalog list (duplicates
preserved), and the concatenation of every entry's note. -/
theorem merge_attribution_spec (entries : List AttributionEntry) :
    (merge_attribution entries).status = entries.head?.bind (fun e => e.status)
    ∧ (merge_attribution entries).composer = entries.findSome? (fun e => e.composer)
    ∧ (merge_attribution entries).dates.composed
        = entries.findSome? (fun e => e.dates.bind (fun d => d.composed))
    ∧ (merge_attribution entries).dates.published
        = entries.findSome? (fun e => e.dates.bind (fun d => d.published))
    ∧ (merge_attribution entries).dates.premiered
        = entries.findSome? (fun e => e.dates.bind (fun d => d.premiered))
    ∧ (merge_attribution entries).dates.revised
        = entries.findSome? (fun e => e.dates.bind (fun d => d.revised))
    ∧ (merge_attribution entries).catalog = (entries.map (fun e => e.catalog.getD [])).flatten
    ∧ (merge_attribution entries).notes = entries.filterMap (fun e => e.note) := by
  obtain ⟨h1, h2, h3, h4, h5, h6, h7, h8⟩ :=
    mergeStep_foldl_spec entries { status := entries.head?.bind (fun e => e.status) }
  exact ⟨h1, by simpa [opt_or] using h2, by simpa [opt_or] using h3,
    by simpa [opt_or] using h4, by simpa [opt_or] using h5, by simpa [opt_or] using h6,
    by simpa using h7, by simpa using h8⟩
